import Mathlib

/-!
# Verification of `geom/navigation.go` (hex-grid A* pathfinding)

Shallow embedding of the `Navigate` function of package `geom` and of the
helper routines `reconstruct` and `heuristic`, together with theorems about
the embedded definitions.

Go's `float64` arithmetic is modelled by exact rational arithmetic (`ℚ`):
the quantities the program manipulates (integer coordinates, squared planar
distances, products with rational multipliers, and the constant
`math.MaxFloat64`) are all exactly representable, so no rounding occurs in
the range of inputs the theorems speak about.  `math.MaxFloat64` is the
exact rational value `2^1024 - 2^971` of the Go constant.

The `Hex` cell type, its `Neighbors` method, its planar projection
`X()/Y()`, and the `Key` type are part of this repository but live outside
the file under verification; where needed they are modelled from the spec
(see the individual doc comments).  `Navigate` itself is embedded
parametrically in the neighbour enumeration, so that theorems which do not
depend on the geometry hold for every cell model.

Go's `for k := range open` iterates in an unspecified order; the embedding
fixes the iteration order to be list order of the frontier.  Go's unbounded
`for` loop is embedded with explicit fuel: the result `none` means the fuel
was exhausted (the termination theorem shows grid-size fuel always
suffices).
-/

/-- Modelled from the spec: the cell type of the external coordinate model.
A cell "is identified by an integer coordinate pair"; cells "are compared by
coordinate identity", the model has "a stable identity key", so the model
carries exactly the coordinate pair `(M, N)` and value equality is
coordinate equality. -/
structure Hex where
  M : Int
  N : Int
deriving DecidableEq, Repr

/-- The coordinate-pair key used for the `closed` set
(`closed := map[Key]interface{}` in the source). -/
structure Key where
  M : Int
  N : Int
deriving DecidableEq, Repr

/-- The obstacle multiplier: a `float64` in Go, which is either a finite
value (modelled exactly as a rational) or positive infinity
(`math.Inf(0)`, which marks a cell completely impassable). -/
inductive CostVal where
  | val (q : ℚ)
  | inf
deriving DecidableEq, Repr

/-- Structure `ContextualObstacle` from the source: a coordinate pair plus the cost
multiplier for traversing that cell. -/
structure ContextualObstacle where
  M : Int
  N : Int
  Cost : CostVal
deriving DecidableEq, Repr

/-- The exact rational value of Go's `math.MaxFloat64`, which is
`(2 - 2⁻⁵²) · 2¹⁰²³ = 2¹⁰²⁴ - 2⁹⁷¹` (written as a literal so that concrete
runs evaluate; `maxFloat64_eq` proves the closed form). -/
def maxFloat64 : ℚ := 179769313486231570814527423731704356798070567525844996598917476803157260780028538760589558632766878171540458953514382464234321326889464182768467546703537516986049910576551282076245490090389328944075868508455133942304583236903222948165808559332123348274797826204144723168738177180919299881250404026184124858368

/-- Modelled from the spec: the planar projection `X()`/`Y()` of a cell and
with it the `heuristic` function of the source.  The spec fixes only that a
cell provides "a derived planar (x, y) position for heuristic distance"; the
model uses the axial hex layout `x = M + N/2`, `y = N·(√3/2)`, under which
all six neighbour steps have unit planar length.  `heuristic` is the
source's "pythagorean theorum, minus the sqrt":
`(a.X()-b.X())² + (a.Y()-b.Y())²`, which for this projection is the rational
`(Δm + Δn/2)² + 3·Δn²/4`. -/
def heuristic (a b : Hex) : ℚ :=
  ((a.M : ℚ) + (a.N : ℚ) / 2 - ((b.M : ℚ) + (b.N : ℚ) / 2)) ^ 2
    + 3 * ((a.N : ℚ) - (b.N : ℚ)) ^ 2 / 4

/-- The constant `oneStep := heuristic(&Hex{M: 0, N: 0}, &Hex{M: 0, N: 1})` from the
source: the base per-step cost, the squared planar length of one step. -/
def oneStep : ℚ := heuristic ⟨0, 0⟩ ⟨0, 1⟩

/-- First-match association-list lookup, the model of reading a Go map that
was written by successive assignments (later assignments are consed in
front, so the first match is the current value). -/
def assoc? {α : Type} : List (Hex × α) → Hex → Option α
  | [], _ => none
  | p :: l, k => if p.1 = k then some p.2 else assoc? l k

/-- Reading a Go `map[*Hex]float64` returns the zero value `0` for an
absent key. -/
def lookupD (l : List (Hex × ℚ)) (k : Hex) : ℚ :=
  (assoc? l k).getD 0

/-- The cons-collecting phase of `reconstruct`: `current`, then repeatedly
`n, ok = prevs[n]` while `ok`, collecting every hop.  The Go loop has no
bound; the fuel passed by `reconstruct` is large enough for every acyclic
predecessor map (a cyclic map would make the Go loop spin forever). -/
def reconstructAux (prevs : List (Hex × Hex)) : Nat → Hex → List Hex
  | 0, cur => [cur]
  | fuel + 1, cur =>
    match assoc? prevs cur with
    | none => [cur]
    | some n => cur :: reconstructAux prevs fuel n

/-- Function `reconstruct` from the source: collect `current` and its chain of
predecessors, then reverse in place so the result runs start → goal. -/
def reconstruct (prevs : List (Hex × Hex)) (current : Hex) : List Hex :=
  (reconstructAux prevs (prevs.length + 1) current).reverse

/-- The transient search state of `Navigate`: the settled set `closed`
(keyed by coordinate `Key`), the frontier `frontier` (`open` in the source,
which is a Lean keyword), and the `cameFrom`, `costs` and `guesses` maps. -/
structure NavState where
  closed : List Key
  frontier : List Hex
  cameFrom : List (Hex × Hex)
  costs : List (Hex × ℚ)
  guesses : List (Hex × ℚ)
deriving Repr

/-- The minimum-priority scan of the source:
`low := math.MaxFloat64; for k := range open { if guesses[k] < low { … } }`.
`none` models `current` staying `nil` (no frontier cell has priority
strictly below `math.MaxFloat64`). -/
def selectMin (guesses : List (Hex × ℚ)) (frontier : List Hex) : Option Hex :=
  (frontier.foldl
    (fun acc k => if lookupD guesses k < acc.2 then (some k, lookupD guesses k) else acc)
    ((none : Option Hex), maxFloat64)).1

/-- The obstacle scan of the source: the first entry of `obstacles` whose
coordinates equal the neighbour's adjusts `tentative` (infinite cost gives
`math.MaxFloat64`, finite cost multiplies) and `break`s; no match leaves
`tentative` unchanged. -/
def adjustCost (obstacles : List ContextualObstacle) (n : Hex) (tentative : ℚ) : ℚ :=
  match obstacles.find? (fun o => o.M == n.M && o.N == n.N) with
  | none => tentative
  | some o =>
    match o.Cost with
    | .inf => maxFloat64
    | .val c => tentative * c

/-- The body of the `for _, n := range current.Neighbors()` loop: skip
settled coordinates, compute `tentative`, insert an unseen neighbour into
the frontier or `continue` when the frontier already holds it at a cost
`tentative` cannot beat, and (on insert or improvement) record predecessor,
cost and priority. -/
def processNeighbor (obstacles : List ContextualObstacle) (goal current : Hex)
    (s : NavState) (n : Hex) : NavState :=
  if (⟨n.M, n.N⟩ : Key) ∈ s.closed then s
  else
    let tentative := adjustCost obstacles n (lookupD s.costs current + oneStep)
    if n ∈ s.frontier then
      if lookupD s.costs n ≤ tentative then s
      else
        { s with
          cameFrom := (n, current) :: s.cameFrom
          costs := (n, tentative) :: s.costs
          guesses := (n, tentative + heuristic n goal) :: s.guesses }
    else
      { s with
        frontier := n :: s.frontier
        cameFrom := (n, current) :: s.cameFrom
        costs := (n, tentative) :: s.costs
        guesses := (n, tentative + heuristic n goal) :: s.guesses }

/-- Settling `current` (`delete(open, current)`;
`closed[Key{…}] = struct{}{}`) followed by the neighbour-expansion loop. -/
def settleAndExpand (nbs : Hex → List Hex) (obstacles : List ContextualObstacle)
    (goal current : Hex) (s : NavState) : NavState :=
  (nbs current).foldl (processNeighbor obstacles goal current)
    { s with
      frontier := s.frontier.erase current
      closed := (⟨current.M, current.N⟩ : Key) :: s.closed }

/-- The one error of `Navigate`:
`fmt.Errorf("no path available from %d,%d to %d,%d", …)`. -/
inductive NavError where
  | pathNotFound (fromM fromN toM toN : Int)
deriving DecidableEq, Repr

/-- The `for len(open) > 0` loop of `Navigate`, with explicit fuel (`none`
means the fuel ran out, which the termination theorem rules out for
grid-size fuel).  An empty frontier or a scan that selects no cell
(`current == nil`, the `break`) falls through to the error return; selecting
the goal returns the reconstructed path; otherwise the cell is settled, its
neighbours expanded, and the loop repeats. -/
def navigateLoop (nbs : Hex → List Hex) (start goal : Hex)
    (obstacles : List ContextualObstacle) :
    Nat → NavState → Option (Except NavError (List Hex))
  | 0, _ => none
  | fuel + 1, s =>
    if s.frontier.isEmpty then
      some (.error (.pathNotFound start.M start.N goal.M goal.N))
    else
      match selectMin s.guesses s.frontier with
      | none => some (.error (.pathNotFound start.M start.N goal.M goal.N))
      | some current =>
        if current = goal then some (.ok (reconstruct s.cameFrom current))
        else
          navigateLoop nbs start goal obstacles fuel
            (settleAndExpand nbs obstacles goal current s)

/-- Function `Navigate` from the source: initialise the search state (`start` is the
sole frontier cell, with cost `0` and priority `heuristic(start, goal)`) and
run the loop.  `nbs` is the neighbour enumeration of the external cell
model. -/
def navigate (nbs : Hex → List Hex) (start goal : Hex)
    (obstacles : List ContextualObstacle) (fuel : Nat) :
    Option (Except NavError (List Hex)) :=
  navigateLoop nbs start goal obstacles fuel
    { closed := []
      frontier := [start]
      cameFrom := []
      costs := [(start, 0)]
      guesses := [(start, heuristic start goal)] }

/-- Modelled from the spec: the six-neighbour enumeration of the axial hex
layout (the six cells at unit planar distance). -/
def axialNeighbors (c : Hex) : List Hex :=
  [⟨c.M + 1, c.N⟩, ⟨c.M - 1, c.N⟩, ⟨c.M, c.N + 1⟩, ⟨c.M, c.N - 1⟩,
   ⟨c.M + 1, c.N - 1⟩, ⟨c.M - 1, c.N + 1⟩]

/-- Membership of a cell in the `w × h` grid (the finite field of cells the
external model exposes). -/
def inGrid (w h : Int) (c : Hex) : Bool :=
  0 ≤ c.M && c.M < w && 0 ≤ c.N && c.N < h

/-- Modelled from the spec: the neighbour enumeration of a finite `w × h`
field ("up to six neighboring cells"; boundary cells have fewer). -/
def gridNeighbors (w h : Int) (c : Hex) : List Hex :=
  (axialNeighbors c).filter (inGrid w h)

/-- The minimal number of steps between two cells of the axial hex grid. -/
def hexDist (a b : Hex) : Nat :=
  ((a.M - b.M).natAbs + (a.N - b.N).natAbs + (a.M + a.N - b.M - b.N).natAbs) / 2

/-! ## The spec's cost model (for comparison with the code's) -/

/-- Modelled from the spec: §4.2's cost of one move.  "The cost of moving
from a settled cell to a neighbor is: (base per-step cost …) × (the
multiplier of the first matching obstacle entry for that neighbor's
coordinate, or 1 if none matches)", added to the accumulated cost `acc` of
the settled cell; an infinite multiplier makes the result "unusably large"
(`math.MaxFloat64`) rather than literal infinity. -/
def adjustCostSpec (obstacles : List ContextualObstacle) (n : Hex) (acc : ℚ) : ℚ :=
  match obstacles.find? (fun o => o.M == n.M && o.N == n.N) with
  | none => acc + oneStep
  | some o =>
    match o.Cost with
    | .inf => maxFloat64
    | .val c => acc + oneStep * c

/-- Modelled from the spec: the neighbour-expansion body with the spec's
per-step cost model of §4.2 in place of the code's; everything else is the
code's. -/
def processNeighborSpec (obstacles : List ContextualObstacle) (goal current : Hex)
    (s : NavState) (n : Hex) : NavState :=
  if (⟨n.M, n.N⟩ : Key) ∈ s.closed then s
  else
    let tentative := adjustCostSpec obstacles n (lookupD s.costs current)
    if n ∈ s.frontier then
      if lookupD s.costs n ≤ tentative then s
      else
        { s with
          cameFrom := (n, current) :: s.cameFrom
          costs := (n, tentative) :: s.costs
          guesses := (n, tentative + heuristic n goal) :: s.guesses }
    else
      { s with
        frontier := n :: s.frontier
        cameFrom := (n, current) :: s.cameFrom
        costs := (n, tentative) :: s.costs
        guesses := (n, tentative + heuristic n goal) :: s.guesses }

/-- Modelled from the spec: the search loop with the spec's per-step cost
model in place of the code's. -/
def navigateLoopSpec (nbs : Hex → List Hex) (start goal : Hex)
    (obstacles : List ContextualObstacle) :
    Nat → NavState → Option (Except NavError (List Hex))
  | 0, _ => none
  | fuel + 1, s =>
    if s.frontier.isEmpty then
      some (.error (.pathNotFound start.M start.N goal.M goal.N))
    else
      match selectMin s.guesses s.frontier with
      | none => some (.error (.pathNotFound start.M start.N goal.M goal.N))
      | some current =>
        if current = goal then some (.ok (reconstruct s.cameFrom current))
        else
          navigateLoopSpec nbs start goal obstacles fuel
            ((nbs current).foldl (processNeighborSpec obstacles goal current)
              { s with
                frontier := s.frontier.erase current
                closed := (⟨current.M, current.N⟩ : Key) :: s.closed })

/-- Modelled from the spec: `Navigate` charging moves as §4.2 prescribes
(per-step multiplication), for comparison with the code's `navigate`. -/
def navigateSpec (nbs : Hex → List Hex) (start goal : Hex)
    (obstacles : List ContextualObstacle) (fuel : Nat) :
    Option (Except NavError (List Hex)) :=
  navigateLoopSpec nbs start goal obstacles fuel
    { closed := []
      frontier := [start]
      cameFrom := []
      costs := [(start, 0)]
      guesses := [(start, heuristic start goal)] }

/-- Modelled from the spec: reachability in the external cell model — a
walk along the neighbour enumeration.  `chain nbs a l b` holds when `l`
lists the successive cells of a walk from `a` to `b`. -/
def chain (nbs : Hex → List Hex) : Hex → List Hex → Hex → Prop
  | a, [], b => a = b
  | a, c :: l, b => c ∈ nbs a ∧ chain nbs c l b

/-- Decidable equality for `Except`, needed to evaluate concrete runs of
`navigate` inside proofs. -/
instance {ε α : Type} [DecidableEq ε] [DecidableEq α] : DecidableEq (Except ε α)
  | .error a, .error b =>
    if h : a = b then .isTrue (by rw [h]) else .isFalse (fun hc => by cases hc; exact h rfl)
  | .error _, .ok _ => .isFalse (fun hc => by cases hc)
  | .ok _, .error _ => .isFalse (fun hc => by cases hc)
  | .ok a, .ok b =>
    if h : a = b then .isTrue (by rw [h]) else .isFalse (fun hc => by cases hc; exact h rfl)

attribute [local semireducible] Rat.add Rat.mul Rat.sub Rat.inv Rat.ofScientific

/-- The loop invariant of `Navigate` over the finite `w × h` field: the
frontier is duplicate-free, frontier cells are unsettled grid cells, and
the settled set is a duplicate-free set of grid coordinates. -/
structure LoopInv (w h : Int) (s : NavState) : Prop where
  frontier_nodup : s.frontier.Nodup
  frontier_keys : ∀ c ∈ s.frontier, (⟨c.M, c.N⟩ : Key) ∉ s.closed
  frontier_grid : ∀ c ∈ s.frontier, inGrid w h c = true
  closed_nodup : s.closed.Nodup
  closed_grid : ∀ k ∈ s.closed, inGrid w h ⟨k.M, k.N⟩ = true

/-! ## Basic lemmas about the embedded definitions -/

theorem heuristic_self (c : Hex) : heuristic c c = 0 := by
  simp [heuristic]

theorem oneStep_eq_one : oneStep = 1 := by
  norm_num [oneStep, heuristic]

theorem maxFloat64_eq : maxFloat64 = 2 ^ 1024 - 2 ^ 971 := by
  norm_num [maxFloat64]

theorem maxFloat64_pos : 0 < maxFloat64 := by
  norm_num [maxFloat64]

/-! ## C7: start = goal returns the one-element path -/

/-- C7: for every cell `c`, `Navigate` called with `start = goal = c` and an
empty obstacle list succeeds (with any positive fuel) and returns exactly
the one-element sequence `[c]`, for every neighbour enumeration. -/
theorem navigate_self_singleton (nbs : Hex → List Hex) (c : Hex) (fuel : Nat) :
    navigate nbs c c [] (fuel + 1) = some (.ok [c]) := by
  have hh : heuristic c c = 0 := heuristic_self c
  simp [navigate, navigateLoop, selectMin, lookupD, assoc?, hh, maxFloat64_pos,
    reconstruct, reconstructAux]

/-! ## C1: the obstacle multiplier is applied to the accumulated cost -/

/-- C1 (failing input for the claim): on the 4×2 grid with start `(0,0)`,
goal `(3,0)` and a single obstacle of multiplier `5/2` on `(2,0)`, the code
multiplies the accumulated cost `costs[current] + oneStep` by the
multiplier, so it prices the move from `(1,0)` into `(2,0)` at
`(1 + 1)·(5/2) - 1 = 4`, not at the claim's `oneStep · (5/2) = 5/2`; as a
consequence the code detours around the obstacle while the spec's per-step
cost model (`navigateSpec`) takes the direct route through it. -/
theorem navigate_multiplier_on_accumulated_cost :
    navigate (gridNeighbors 4 2) ⟨0, 0⟩ ⟨3, 0⟩ [⟨2, 0, .val (5/2)⟩] 40
        = some (.ok [⟨0, 0⟩, ⟨1, 0⟩, ⟨1, 1⟩, ⟨2, 1⟩, ⟨3, 0⟩])
      ∧ navigateSpec (gridNeighbors 4 2) ⟨0, 0⟩ ⟨3, 0⟩ [⟨2, 0, .val (5/2)⟩] 40
        = some (.ok [⟨0, 0⟩, ⟨1, 0⟩, ⟨2, 0⟩, ⟨3, 0⟩])
      ∧ adjustCost [⟨2, 0, .val (5/2)⟩] ⟨2, 0⟩ (1 + oneStep) - 1 ≠ oneStep * (5/2) :=
  ⟨by decide, by decide, by decide⟩

/-! ## C6: duplicate obstacle coordinates — the first entry wins -/

/-- C6: when the obstacle list contains an entry `o` matching the
neighbour's coordinates and no earlier entry matches, cost evaluation
applies exactly `o`'s multiplier, and every entry after `o` — in particular
any later duplicate of the same coordinates — is ignored. -/
theorem adjustCost_first_match_wins (pre post : List ContextualObstacle)
    (o : ContextualObstacle) (n : Hex) (t : ℚ)
    (hpre : ∀ o2 ∈ pre, ¬(o2.M = n.M ∧ o2.N = n.N))
    (hM : o.M = n.M) (hN : o.N = n.N) :
    adjustCost (pre ++ o :: post) n t
        = (match o.Cost with | .inf => maxFloat64 | .val c => t * c)
      ∧ ∀ post2 : List ContextualObstacle,
          adjustCost (pre ++ o :: post) n t = adjustCost (pre ++ o :: post2) n t := by
  have hfind : ∀ post2 : List ContextualObstacle,
      (pre ++ o :: post2).find? (fun o2 => o2.M == n.M && o2.N == n.N) = some o := by
    intro post2
    rw [List.find?_append]
    have hnone : pre.find? (fun o2 => o2.M == n.M && o2.N == n.N) = none := by
      rw [List.find?_eq_none]
      intro x hx
      simpa using hpre x hx
    rw [hnone, List.find?_cons_of_pos _ (by simp [hM, hN])]
    rfl
  constructor
  · rw [adjustCost, hfind post]
  · intro post2
    rw [adjustCost, adjustCost, hfind post, hfind post2]

/-- Witness for `adjustCost_first_match_wins`: with two entries on the same
coordinate, the first (multiplier 2) wins and the later infinite entry is
ignored. -/
theorem adjustCost_first_match_wins_witness :
    adjustCost ([⟨5, 5, .val 3⟩] ++ ⟨0, 1, .val 2⟩ :: [⟨0, 1, .inf⟩]) ⟨0, 1⟩ 7
        = (match CostVal.val 2 with | .inf => maxFloat64 | .val c => (7 : ℚ) * c)
      ∧ ∀ post2 : List ContextualObstacle,
          adjustCost ([⟨5, 5, .val 3⟩] ++ ⟨0, 1, .val 2⟩ :: [⟨0, 1, .inf⟩]) ⟨0, 1⟩ 7
            = adjustCost ([⟨5, 5, .val 3⟩] ++ ⟨0, 1, .val 2⟩ :: post2) ⟨0, 1⟩ 7 :=
  adjustCost_first_match_wins [⟨5, 5, .val 3⟩] [⟨0, 1, .inf⟩] ⟨0, 1, .val 2⟩ ⟨0, 1⟩ 7
    (by decide) rfl rfl

/-! ## C9: a frontier of priorities at or above MaxFloat64 ends the search -/

theorem selectMin_of_forall_ge (g : List (Hex × ℚ)) (l : List Hex)
    (h : ∀ k ∈ l, maxFloat64 ≤ lookupD g k) : selectMin g l = none := by
  have haux : ∀ l2 : List Hex, (∀ k ∈ l2, maxFloat64 ≤ lookupD g k) →
      l2.foldl
        (fun acc k => if lookupD g k < acc.2 then (some k, lookupD g k) else acc)
        ((none : Option Hex), maxFloat64) = ((none : Option Hex), maxFloat64) := by
    intro l2
    induction l2 with
    | nil => intro _; rfl
    | cons a tl ih =>
      intro hall
      have ha : ¬ lookupD g a < maxFloat64 := not_lt.mpr (hall a (List.mem_cons_self a tl))
      simp only [List.foldl_cons, ha, if_false]
      exact ih fun k hk => hall k (List.mem_cons_of_mem a hk)
  rw [selectMin, haux l h]

/-- C9: if at the start of a loop iteration the frontier is non-empty but
every frontier cell's priority is at least `math.MaxFloat64`, the
minimum-selection scan selects no cell (`current` stays `nil`), the loop
breaks, and `Navigate` returns the no-path error even though the frontier
was never emptied — so such a cell is never expanded. -/
theorem navigateLoop_all_ge_maxFloat (nbs : Hex → List Hex) (start goal : Hex)
    (obstacles : List ContextualObstacle) (fuel : Nat) (s : NavState)
    (hne : s.frontier ≠ [])
    (hge : ∀ k ∈ s.frontier, maxFloat64 ≤ lookupD s.guesses k) :
    selectMin s.guesses s.frontier = none
      ∧ navigateLoop nbs start goal obstacles (fuel + 1) s
        = some (.error (.pathNotFound start.M start.N goal.M goal.N)) := by
  have hsel : selectMin s.guesses s.frontier = none := selectMin_of_forall_ge _ _ hge
  refine ⟨hsel, ?_⟩
  simp [navigateLoop, List.isEmpty_iff, hne, hsel]

/-- Witness for `navigateLoop_all_ge_maxFloat`: a one-cell frontier whose
sole priority is exactly `math.MaxFloat64` is not selected and the loop
reports no path. -/
theorem navigateLoop_all_ge_maxFloat_witness :
    selectMin [(⟨0, 0⟩, maxFloat64)] [⟨0, 0⟩] = none
      ∧ navigateLoop (fun _ => []) ⟨7, 8⟩ ⟨0, 0⟩ [] 1
          ⟨[], [⟨0, 0⟩], [], [], [(⟨0, 0⟩, maxFloat64)]⟩
        = some (.error (.pathNotFound 7 8 0 0)) :=
  navigateLoop_all_ge_maxFloat (fun _ => []) ⟨7, 8⟩ ⟨0, 0⟩ [] 0
    ⟨[], [⟨0, 0⟩], [], [], [(⟨0, 0⟩, maxFloat64)]⟩
    (by simp)
    (by intro k hk; simp at hk; subst hk; simp [lookupD, assoc?])

/-! ## C5: frontier update only on strict improvement -/

/-- C5: during neighbour expansion (for a neighbour whose coordinates are
not settled), a neighbour already in the frontier is left completely
unchanged unless the newly computed cost is strictly lower than its
recorded cost; on a strict improvement, and likewise on a fresh insert, its
recorded cost becomes the new cost, its predecessor becomes the currently
expanded cell, and its priority becomes its cost plus
`heuristic(neighbour, goal)`. -/
theorem processNeighbor_semantics (obstacles : List ContextualObstacle)
    (goal current : Hex) (s : NavState) (n : Hex)
    (hcl : (⟨n.M, n.N⟩ : Key) ∉ s.closed) :
    ((n ∈ s.frontier
        ∧ lookupD s.costs n ≤ adjustCost obstacles n (lookupD s.costs current + oneStep)) →
      processNeighbor obstacles goal current s n = s)
    ∧ ((n ∈ s.frontier
        ∧ adjustCost obstacles n (lookupD s.costs current + oneStep) < lookupD s.costs n) →
      (processNeighbor obstacles goal current s n).frontier = s.frontier
        ∧ lookupD (processNeighbor obstacles goal current s n).costs n
            = adjustCost obstacles n (lookupD s.costs current + oneStep)
        ∧ assoc? (processNeighbor obstacles goal current s n).cameFrom n = some current
        ∧ lookupD (processNeighbor obstacles goal current s n).guesses n
            = lookupD (processNeighbor obstacles goal current s n).costs n + heuristic n goal)
    ∧ (n ∉ s.frontier →
      (processNeighbor obstacles goal current s n).frontier = n :: s.frontier
        ∧ lookupD (processNeighbor obstacles goal current s n).costs n
            = adjustCost obstacles n (lookupD s.costs current + oneStep)
        ∧ assoc? (processNeighbor obstacles goal current s n).cameFrom n = some current
        ∧ lookupD (processNeighbor obstacles goal current s n).guesses n
            = lookupD (processNeighbor obstacles goal current s n).costs n + heuristic n goal) := by
  refine ⟨?_, ?_, ?_⟩
  · rintro ⟨hmem, hle⟩
    rw [processNeighbor, if_neg hcl]
    simp only [if_pos hmem, if_pos hle]
  · rintro ⟨hmem, hlt⟩
    have hnle : ¬ lookupD s.costs n ≤ adjustCost obstacles n (lookupD s.costs current + oneStep) :=
      not_le.mpr hlt
    rw [processNeighbor, if_neg hcl]
    simp only [if_pos hmem, if_neg hnle]
    simp [lookupD, assoc?]
  · intro hmem
    rw [processNeighbor, if_neg hcl]
    simp only [if_neg hmem]
    simp [lookupD, assoc?]

/-- Witness for `processNeighbor_semantics`: inserting the unseen neighbour
`(1,0)` from an empty state records it in the frontier with the computed
cost. -/
theorem processNeighbor_semantics_witness :
    (processNeighbor [] ⟨0, 0⟩ ⟨0, 0⟩ ⟨[], [], [], [], []⟩ ⟨1, 0⟩).frontier = [⟨1, 0⟩]
      ∧ lookupD (processNeighbor [] ⟨0, 0⟩ ⟨0, 0⟩ ⟨[], [], [], [], []⟩ ⟨1, 0⟩).costs ⟨1, 0⟩
          = adjustCost [] ⟨1, 0⟩ (lookupD [] ⟨0, 0⟩ + oneStep) := by
  have h := processNeighbor_semantics [] ⟨0, 0⟩ ⟨0, 0⟩ ⟨[], [], [], [], []⟩ ⟨1, 0⟩ (by simp)
  have h2 := h.2.2 (by simp)
  exact ⟨h2.1, h2.2.1⟩

/-! ## C2: cells are identified by their coordinate pair -/

theorem processNeighbor_frontier_nodup (obstacles : List ContextualObstacle)
    (goal current : Hex) (s : NavState) (n : Hex) (h : s.frontier.Nodup) :
    (processNeighbor obstacles goal current s n).frontier.Nodup := by
  by_cases hcl : (⟨n.M, n.N⟩ : Key) ∈ s.closed
  · rw [processNeighbor, if_pos hcl]; exact h
  · by_cases hmem : n ∈ s.frontier
    · by_cases hle : lookupD s.costs n ≤ adjustCost obstacles n (lookupD s.costs current + oneStep)
      · rw [processNeighbor, if_neg hcl]; simp only [if_pos hmem, if_pos hle]; exact h
      · rw [processNeighbor, if_neg hcl]; simp only [if_pos hmem, if_neg hle]; exact h
    · rw [processNeighbor, if_neg hcl]; simp only [if_neg hmem]
      exact List.nodup_cons.mpr ⟨hmem, h⟩

theorem foldl_processNeighbor_frontier_nodup (obstacles : List ContextualObstacle)
    (goal current : Hex) :
    ∀ (l : List Hex) (s : NavState), s.frontier.Nodup →
      (l.foldl (processNeighbor obstacles goal current) s).frontier.Nodup := by
  intro l
  induction l with
  | nil => exact fun s h => h
  | cons a tl ih =>
    intro s h
    exact ih _ (processNeighbor_frontier_nodup _ _ _ _ _ h)

theorem settleAndExpand_frontier_nodup (nbs : Hex → List Hex)
    (obstacles : List ContextualObstacle) (goal current : Hex) (s : NavState)
    (h : s.frontier.Nodup) :
    (settleAndExpand nbs obstacles goal current s).frontier.Nodup := by
  rw [settleAndExpand]
  exact foldl_processNeighbor_frontier_nodup _ _ _ _ _ (h.erase current)

/-- C2: two cell values with equal `(M, N)` coordinates are the same cell
of the model, so the frontier-membership test, the cost lookup used by the
frontier cost-update test, and the goal-equality test all treat them as the
same node; moreover one settle-and-expand step keeps a duplicate-free
frontier duplicate-free, so a cell never appears twice in the frontier. -/
theorem hex_coordinate_identity (a b : Hex) (hM : a.M = b.M) (hN : a.N = b.N)
    (s : NavState) (nbs : Hex → List Hex) (obstacles : List ContextualObstacle)
    (goal current : Hex) (hnd : s.frontier.Nodup) :
    a = b
      ∧ (a ∈ s.frontier ↔ b ∈ s.frontier)
      ∧ lookupD s.costs a = lookupD s.costs b
      ∧ (a = goal ↔ b = goal)
      ∧ (settleAndExpand nbs obstacles goal current s).frontier.Nodup := by
  have hab : a = b := by cases a; cases b; cases hM; cases hN; rfl
  subst hab
  exact ⟨rfl, Iff.rfl, rfl, Iff.rfl, settleAndExpand_frontier_nodup _ _ _ _ _ hnd⟩

/-- Witness for `hex_coordinate_identity` at concrete cells and a concrete
search state. -/
theorem hex_coordinate_identity_witness :
    (⟨2, 3⟩ : Hex) = ⟨2, 3⟩
      ∧ ((⟨2, 3⟩ : Hex) ∈ [(⟨2, 3⟩ : Hex)] ↔ (⟨2, 3⟩ : Hex) ∈ [(⟨2, 3⟩ : Hex)])
      ∧ lookupD [] ⟨2, 3⟩ = lookupD [] ⟨2, 3⟩
      ∧ ((⟨2, 3⟩ : Hex) = ⟨0, 0⟩ ↔ (⟨2, 3⟩ : Hex) = ⟨0, 0⟩)
      ∧ (settleAndExpand (fun _ => []) [] ⟨0, 0⟩ ⟨2, 3⟩
          ⟨[], [⟨2, 3⟩], [], [], []⟩).frontier.Nodup := by
  have h := hex_coordinate_identity ⟨2, 3⟩ ⟨2, 3⟩ rfl rfl
    ⟨[], [⟨2, 3⟩], [], [], []⟩ (fun _ => []) [] ⟨0, 0⟩ ⟨2, 3⟩ (by simp)
  exact h

/-! ## Machinery for termination and invariants (C8, C4) -/

theorem processNeighbor_closed (obstacles : List ContextualObstacle)
    (goal current : Hex) (s : NavState) (n : Hex) :
    (processNeighbor obstacles goal current s n).closed = s.closed := by
  by_cases hcl : (⟨n.M, n.N⟩ : Key) ∈ s.closed
  · rw [processNeighbor, if_pos hcl]
  · by_cases hmem : n ∈ s.frontier
    · by_cases hle : lookupD s.costs n ≤ adjustCost obstacles n (lookupD s.costs current + oneStep)
      · rw [processNeighbor, if_neg hcl]; simp only [if_pos hmem, if_pos hle]
      · rw [processNeighbor, if_neg hcl]; simp only [if_pos hmem, if_neg hle]
    · rw [processNeighbor, if_neg hcl]; simp only [if_neg hmem]

theorem processNeighbor_frontier_cases (obstacles : List ContextualObstacle)
    (goal current : Hex) (s : NavState) (n c : Hex)
    (hc : c ∈ (processNeighbor obstacles goal current s n).frontier) :
    c ∈ s.frontier ∨ (c = n ∧ (⟨n.M, n.N⟩ : Key) ∉ s.closed) := by
  by_cases hcl : (⟨n.M, n.N⟩ : Key) ∈ s.closed
  · rw [processNeighbor, if_pos hcl] at hc; exact Or.inl hc
  · by_cases hmem : n ∈ s.frontier
    · by_cases hle : lookupD s.costs n ≤ adjustCost obstacles n (lookupD s.costs current + oneStep)
      · rw [processNeighbor, if_neg hcl] at hc; simp only [if_pos hmem, if_pos hle] at hc
        exact Or.inl hc
      · rw [processNeighbor, if_neg hcl] at hc; simp only [if_pos hmem, if_neg hle] at hc
        exact Or.inl hc
    · rw [processNeighbor, if_neg hcl] at hc; simp only [if_neg hmem] at hc
      rcases List.mem_cons.mp hc with h1 | h1
      · exact Or.inr ⟨h1, hcl⟩
      · exact Or.inl h1

theorem foldl_processNeighbor_closed (obstacles : List ContextualObstacle)
    (goal current : Hex) (l : List Hex) :
    ∀ s : NavState, (l.foldl (processNeighbor obstacles goal current) s).closed = s.closed := by
  induction l with
  | nil => exact fun _ => rfl
  | cons a tl ih =>
    intro s
    rw [List.foldl_cons, ih, processNeighbor_closed]

theorem settleAndExpand_closed (nbs : Hex → List Hex) (obstacles : List ContextualObstacle)
    (goal current : Hex) (s : NavState) :
    (settleAndExpand nbs obstacles goal current s).closed
      = (⟨current.M, current.N⟩ : Key) :: s.closed := by
  rw [settleAndExpand, foldl_processNeighbor_closed]

theorem foldl_processNeighbor_frontier_prop (obstacles : List ContextualObstacle)
    (goal current : Hex) (P : Hex → Prop) (l : List Hex) :
    ∀ s : NavState, (∀ c ∈ s.frontier, P c) →
      (∀ n ∈ l, (⟨n.M, n.N⟩ : Key) ∉ s.closed → P n) →
      ∀ c ∈ (l.foldl (processNeighbor obstacles goal current) s).frontier, P c := by
  induction l with
  | nil => exact fun s hf _ => hf
  | cons a tl ih =>
    intro s hf hl
    rw [List.foldl_cons]
    refine ih (processNeighbor obstacles goal current s a) ?_ ?_
    · intro c hc
      rcases processNeighbor_frontier_cases obstacles goal current s a c hc with h1 | ⟨h1, h2⟩
      · exact hf c h1
      · exact h1 ▸ hl a (List.mem_cons_self a tl) h2
    · intro n hn hcn
      rw [processNeighbor_closed] at hcn
      exact hl n (List.mem_cons_of_mem a hn) hcn

theorem key_mk_inj (a b : Hex) (h : (⟨a.M, a.N⟩ : Key) = ⟨b.M, b.N⟩) : a = b := by
  cases a; cases b
  simp only [Key.mk.injEq] at h
  simp [h.1, h.2]

theorem selectMin_spec (g : List (Hex × ℚ)) (l : List Hex) (c : Hex)
    (h : selectMin g l = some c) : c ∈ l ∧ lookupD g c < maxFloat64 := by
  suffices haux : ∀ (l2 : List Hex) (acc : Option Hex × ℚ),
      (acc.1 = none → acc.2 = maxFloat64) →
      (∀ c2, acc.1 = some c2 → c2 ∈ l ∧ lookupD g c2 = acc.2 ∧ acc.2 < maxFloat64) →
      (∀ x ∈ l2, x ∈ l) →
      ∀ c2, (l2.foldl
          (fun acc k => if lookupD g k < acc.2 then (some k, lookupD g k) else acc) acc).1
        = some c2 → c2 ∈ l ∧ lookupD g c2 < maxFloat64 by
    have := haux l ((none : Option Hex), maxFloat64) (fun _ => rfl)
      (fun c2 hc2 => by simp at hc2) (fun x hx => hx) c
    rw [selectMin] at h
    exact this h
  intro l2
  induction l2 with
  | nil =>
    intro acc hnone hsome _ c2 hc2
    have := hsome c2 hc2
    exact ⟨this.1, this.2.1 ▸ this.2.2⟩
  | cons a tl ih =>
    intro acc hnone hsome hsub c2 hc2
    simp only [List.foldl_cons] at hc2
    by_cases hlt : lookupD g a < acc.2
    · rw [if_pos hlt] at hc2
      refine ih (some a, lookupD g a) (by intro hn; cases hn) ?_
        (fun x hx => hsub x (List.mem_cons_of_mem a hx)) c2 hc2
      intro c3 hc3
      simp at hc3
      subst hc3
      refine ⟨hsub a (List.mem_cons_self a tl), rfl, ?_⟩
      rcases hacc1 : acc.1 with _ | c4
      · exact hnone hacc1 ▸ hlt
      · exact lt_trans hlt (hsome c4 hacc1).2.2
    · rw [if_neg hlt] at hc2
      exact ih acc hnone hsome (fun x hx => hsub x (List.mem_cons_of_mem a hx)) c2 hc2

theorem settleAndExpand_inv (w h : Int) (obstacles : List ContextualObstacle)
    (goal current : Hex) (s : NavState)
    (hinv : LoopInv w h s) (hcur : current ∈ s.frontier) :
    LoopInv w h (settleAndExpand (gridNeighbors w h) obstacles goal current s) := by
  have hckey : (⟨current.M, current.N⟩ : Key) ∉ s.closed := hinv.frontier_keys current hcur
  have hfront : ∀ c ∈ (settleAndExpand (gridNeighbors w h) obstacles goal current s).frontier,
      inGrid w h c = true ∧ (⟨c.M, c.N⟩ : Key) ∉ (⟨current.M, current.N⟩ : Key) :: s.closed := by
    rw [settleAndExpand]
    refine foldl_processNeighbor_frontier_prop obstacles goal current _ _ _ ?_ ?_
    · intro c hc
      simp only at hc
      have hc2 : c ≠ current ∧ c ∈ s.frontier :=
        (List.Nodup.mem_erase_iff hinv.frontier_nodup).mp hc
      refine ⟨hinv.frontier_grid c hc2.2, ?_⟩
      intro hmem
      rcases List.mem_cons.mp hmem with h1 | h1
      · exact hc2.1 (key_mk_inj c current h1)
      · exact hinv.frontier_keys c hc2.2 h1
    · intro n hn hcn
      simp only at hn hcn
      refine ⟨?_, hcn⟩
      rw [gridNeighbors] at hn
      exact (List.mem_filter.mp hn).2
  refine ⟨settleAndExpand_frontier_nodup _ _ _ _ _ hinv.frontier_nodup, ?_, ?_, ?_, ?_⟩
  · intro c hc
    rw [settleAndExpand_closed]
    exact (hfront c hc).2
  · intro c hc
    exact (hfront c hc).1
  · rw [settleAndExpand_closed]
    exact List.nodup_cons.mpr ⟨hckey, hinv.closed_nodup⟩
  · rw [settleAndExpand_closed]
    intro k hk
    rcases List.mem_cons.mp hk with h1 | h1
    · subst h1
      exact hinv.frontier_grid current hcur
    · exact hinv.closed_grid k h1

theorem closed_length_le (w h : Int) (l : List Key) (hnd : l.Nodup)
    (hg : ∀ k ∈ l, inGrid w h ⟨k.M, k.N⟩ = true) :
    l.length ≤ w.toNat * h.toNat := by
  classical
  have hinj : Function.Injective (fun k : Key => (k.M, k.N)) := by
    intro a b hab
    cases a; cases b
    simpa using hab
  have h1 : (l.map fun k => (k.M, k.N)).Nodup := hnd.map hinj
  have h2 : (l.map fun k => (k.M, k.N)).toFinset
      ⊆ Finset.Icc (0 : Int) (w - 1) ×ˢ Finset.Icc (0 : Int) (h - 1) := by
    intro p hp
    rw [List.mem_toFinset, List.mem_map] at hp
    obtain ⟨k, hk, rfl⟩ := hp
    have hgk := hg k hk
    simp only [inGrid, Bool.and_eq_true, decide_eq_true_eq] at hgk
    simp only [Finset.mem_product, Finset.mem_Icc]
    omega
  calc l.length = (l.map fun k => (k.M, k.N)).length := (List.length_map _ _).symm
    _ = (l.map fun k => (k.M, k.N)).toFinset.card := (List.toFinset_card_of_nodup h1).symm
    _ ≤ (Finset.Icc (0 : Int) (w - 1) ×ˢ Finset.Icc (0 : Int) (h - 1)).card :=
        Finset.card_le_card h2
    _ = w.toNat * h.toNat := by
        rw [Finset.card_product, Int.card_Icc, Int.card_Icc]
        have e1 : (w - 1 + 1 - 0 : Int).toNat = w.toNat := by omega
        have e2 : (h - 1 + 1 - 0 : Int).toNat = h.toNat := by omega
        rw [e1, e2]

theorem navigateLoop_ne_none (w h : Int) (start goal : Hex)
    (obstacles : List ContextualObstacle) :
    ∀ (fuel : Nat) (s : NavState), LoopInv w h s →
      w.toNat * h.toNat < fuel + s.closed.length →
      navigateLoop (gridNeighbors w h) start goal obstacles fuel s ≠ none := by
  intro fuel
  induction fuel with
  | zero =>
    intro s hinv hlt
    exfalso
    have := closed_length_le w h s.closed hinv.closed_nodup hinv.closed_grid
    omega
  | succ fuel ih =>
    intro s hinv hlt
    rw [navigateLoop]
    by_cases hemp : s.frontier.isEmpty
    · simp [hemp]
    · simp only [hemp, Bool.false_eq_true, if_false]
      cases hsel : selectMin s.guesses s.frontier with
      | none => simp
      | some current =>
        by_cases hgoal : current = goal
        · simp [hgoal]
        · simp only [hgoal, if_false]
          have hcur : current ∈ s.frontier :=
            (selectMin_spec s.guesses s.frontier current hsel).1
          refine ih _ (settleAndExpand_inv w h obstacles goal current s hinv hcur) ?_
          rw [settleAndExpand_closed]
          simp only [List.length_cons]
          omega

/-! ## C8: termination within grid-size iterations -/

theorem navigate_ne_none_of_grid (w h : Int) (start goal : Hex)
    (obstacles : List ContextualObstacle) (fuel : Nat)
    (hstart : inGrid w h start = true) (hfuel : w.toNat * h.toNat < fuel) :
    navigate (gridNeighbors w h) start goal obstacles fuel ≠ none := by
  rw [navigate]
  refine navigateLoop_ne_none w h start goal obstacles fuel _ ?_ (by simpa using hfuel)
  refine ⟨by simp, by simp, ?_, by simp, by simp⟩
  intro c hc
  rw [List.mem_singleton] at hc
  subst hc
  exact hstart

/-- C8: on the finite `w × h` field, `Navigate` terminates within grid-size
many iterations for every start, goal and obstacle list: each loop
iteration that neither returns nor breaks settles exactly one more
coordinate (second conjunct: the settled set strictly grows), settled
coordinates are grid cells and never repeat, so any fuel exceeding the
number of grid cells is never exhausted (first conjunct). -/
theorem navigate_terminates (w h : Int) (start goal : Hex)
    (obstacles : List ContextualObstacle) (fuel : Nat)
    (hstart : inGrid w h start = true) (hfuel : w.toNat * h.toNat < fuel) :
    navigate (gridNeighbors w h) start goal obstacles fuel ≠ none
      ∧ ∀ (current : Hex) (s : NavState),
          (settleAndExpand (gridNeighbors w h) obstacles goal current s).closed
            = (⟨current.M, current.N⟩ : Key) :: s.closed :=
  ⟨navigate_ne_none_of_grid w h start goal obstacles fuel hstart hfuel,
   fun _ _ => settleAndExpand_closed _ _ _ _ _⟩

/-- Witness for `navigate_terminates` on the 2×2 grid with fuel 5. -/
theorem navigate_terminates_witness :
    navigate (gridNeighbors 2 2) ⟨0, 0⟩ ⟨1, 1⟩ [] 5 ≠ none
      ∧ ∀ (current : Hex) (s : NavState),
          (settleAndExpand (gridNeighbors 2 2) [] ⟨1, 1⟩ current s).closed
            = (⟨current.M, current.N⟩ : Key) :: s.closed :=
  navigate_terminates 2 2 ⟨0, 0⟩ ⟨1, 1⟩ [] 5 (by decide) (by decide)

/-! ## Machinery for an impassable goal (C4) -/

theorem lookupD_cons_self (k : Hex) (v : ℚ) (l : List (Hex × ℚ)) :
    lookupD ((k, v) :: l) k = v := by
  simp [lookupD, assoc?]

theorem lookupD_cons_ne (k2 k : Hex) (v : ℚ) (l : List (Hex × ℚ)) (h : k2 ≠ k) :
    lookupD ((k2, v) :: l) k = lookupD l k := by
  simp [lookupD, assoc?, h]

theorem adjustCost_goal_inf (obstacles : List ContextualObstacle) (goal : Hex)
    (o : ContextualObstacle) (t : ℚ)
    (hfind : obstacles.find? (fun ob => ob.M == goal.M && ob.N == goal.N) = some o)
    (hinf : o.Cost = .inf) :
    adjustCost obstacles goal t = maxFloat64 := by
  rw [adjustCost, hfind]
  simp [hinf]

theorem processNeighbor_goal_guess (obstacles : List ContextualObstacle)
    (goal current : Hex) (s : NavState) (n : Hex) (o : ContextualObstacle)
    (hfind : obstacles.find? (fun ob => ob.M == goal.M && ob.N == goal.N) = some o)
    (hinf : o.Cost = .inf)
    (hg : goal ∈ s.frontier → maxFloat64 ≤ lookupD s.guesses goal) :
    goal ∈ (processNeighbor obstacles goal current s n).frontier →
      maxFloat64 ≤ lookupD (processNeighbor obstacles goal current s n).guesses goal := by
  by_cases hcl : (⟨n.M, n.N⟩ : Key) ∈ s.closed
  · rw [processNeighbor, if_pos hcl]; exact hg
  · have hwrite : maxFloat64 ≤ lookupD
        ((n, adjustCost obstacles n (lookupD s.costs current + oneStep) + heuristic n goal)
          :: s.guesses) goal → True := fun _ => trivial
    by_cases hn : n = goal
    · subst hn
      have hval : adjustCost obstacles n (lookupD s.costs current + oneStep) + heuristic n n
          = maxFloat64 := by
        rw [adjustCost_goal_inf obstacles n o _ hfind hinf, heuristic_self, add_zero]
      by_cases hmem : n ∈ s.frontier
      · by_cases hle : lookupD s.costs n ≤ adjustCost obstacles n (lookupD s.costs current + oneStep)
        · rw [processNeighbor, if_neg hcl]; simp only [if_pos hmem, if_pos hle]; exact hg
        · rw [processNeighbor, if_neg hcl]; simp only [if_pos hmem, if_neg hle]
          intro _
          simp only [lookupD_cons_self, hval, le_refl]
      · rw [processNeighbor, if_neg hcl]; simp only [if_neg hmem]
        intro _
        simp only [lookupD_cons_self, hval, le_refl]
    · by_cases hmem : n ∈ s.frontier
      · by_cases hle : lookupD s.costs n ≤ adjustCost obstacles n (lookupD s.costs current + oneStep)
        · rw [processNeighbor, if_neg hcl]; simp only [if_pos hmem, if_pos hle]; exact hg
        · rw [processNeighbor, if_neg hcl]; simp only [if_pos hmem, if_neg hle]
          intro hmem2
          rw [lookupD_cons_ne _ _ _ _ hn]
          exact hg hmem2
      · rw [processNeighbor, if_neg hcl]; simp only [if_neg hmem]
        intro hmem2
        rcases List.mem_cons.mp hmem2 with h1 | h1
        · exact absurd h1.symm hn
        · rw [lookupD_cons_ne _ _ _ _ hn]
          exact hg h1

theorem foldl_processNeighbor_goal_guess (obstacles : List ContextualObstacle)
    (goal current : Hex) (o : ContextualObstacle)
    (hfind : obstacles.find? (fun ob => ob.M == goal.M && ob.N == goal.N) = some o)
    (hinf : o.Cost = .inf) (l : List Hex) :
    ∀ s : NavState, (goal ∈ s.frontier → maxFloat64 ≤ lookupD s.guesses goal) →
      goal ∈ (l.foldl (processNeighbor obstacles goal current) s).frontier →
        maxFloat64 ≤ lookupD (l.foldl (processNeighbor obstacles goal current) s).guesses goal := by
  induction l with
  | nil => exact fun s hg => hg
  | cons a tl ih =>
    intro s hg
    rw [List.foldl_cons]
    exact ih _ (processNeighbor_goal_guess obstacles goal current s a o hfind hinf hg)

theorem settleAndExpand_goal_guess (nbs : Hex → List Hex)
    (obstacles : List ContextualObstacle) (goal current : Hex) (s : NavState)
    (o : ContextualObstacle)
    (hfind : obstacles.find? (fun ob => ob.M == goal.M && ob.N == goal.N) = some o)
    (hinf : o.Cost = .inf)
    (hg : goal ∈ s.frontier → maxFloat64 ≤ lookupD s.guesses goal) :
    goal ∈ (settleAndExpand nbs obstacles goal current s).frontier →
      maxFloat64 ≤ lookupD (settleAndExpand nbs obstacles goal current s).guesses goal := by
  rw [settleAndExpand]
  refine foldl_processNeighbor_goal_guess obstacles goal current o hfind hinf _ _ ?_
  intro hmem
  exact hg (List.mem_of_mem_erase hmem)

theorem navigateLoop_shape (nbs : Hex → List Hex) (start goal : Hex)
    (obstacles : List ContextualObstacle) :
    ∀ (fuel : Nat) (s : NavState),
      navigateLoop nbs start goal obstacles fuel s = none
        ∨ (∃ p, navigateLoop nbs start goal obstacles fuel s = some (.ok p))
        ∨ navigateLoop nbs start goal obstacles fuel s
            = some (.error (.pathNotFound start.M start.N goal.M goal.N)) := by
  intro fuel
  induction fuel with
  | zero => exact fun s => Or.inl rfl
  | succ fuel ih =>
    intro s
    rw [navigateLoop]
    by_cases hemp : s.frontier.isEmpty
    · right; right; simp [hemp]
    · simp only [hemp, Bool.false_eq_true, if_false]
      cases hsel : selectMin s.guesses s.frontier with
      | none => right; right; rfl
      | some current =>
        by_cases hgoal : current = goal
        · right; left
          refine ⟨reconstruct s.cameFrom current, ?_⟩
          simp [hgoal]
        · simp only [hgoal, if_false]
          exact ih _

theorem navigateLoop_no_ok (nbs : Hex → List Hex) (start goal : Hex)
    (obstacles : List ContextualObstacle) (o : ContextualObstacle)
    (hfind : obstacles.find? (fun ob => ob.M == goal.M && ob.N == goal.N) = some o)
    (hinf : o.Cost = .inf) :
    ∀ (fuel : Nat) (s : NavState),
      (goal ∈ s.frontier → maxFloat64 ≤ lookupD s.guesses goal) →
      ∀ p, navigateLoop nbs start goal obstacles fuel s ≠ some (.ok p) := by
  intro fuel
  induction fuel with
  | zero => intro s _ p h; cases h
  | succ fuel ih =>
    intro s hg p
    rw [navigateLoop]
    by_cases hemp : s.frontier.isEmpty
    · simp [hemp]
    · simp only [hemp, Bool.false_eq_true, if_false]
      cases hsel : selectMin s.guesses s.frontier with
      | none => simp
      | some current =>
        by_cases hgoal : current = goal
        · exfalso
          have hspec := selectMin_spec s.guesses s.frontier current hsel
          rw [hgoal] at hspec
          exact absurd hspec.2 (not_lt.mpr (hg hspec.1))
        · simp only [hgoal, if_false]
          exact ih _ (settleAndExpand_goal_guess nbs obstacles goal current s o hfind hinf hg) p

/-! ## C4: an impassable goal -/

/-- C4 (amended): when the *first* obstacle entry matching the goal's
coordinates has an infinite multiplier and the goal's coordinates differ
from the start's, `Navigate` over the finite `w × h` field (with fuel
beyond the grid size, which is never exhausted) returns the
path-not-found error: every edge into the goal is priced at the unusably
large finite value `math.MaxFloat64`, so the goal's priority never drops
below the scan's starting threshold and the goal is never selected. -/
theorem navigate_impassable_goal (w h : Int) (start goal : Hex)
    (obstacles : List ContextualObstacle) (o : ContextualObstacle) (fuel : Nat)
    (hne : ¬(start.M = goal.M ∧ start.N = goal.N))
    (hfind : obstacles.find? (fun ob => ob.M == goal.M && ob.N == goal.N) = some o)
    (hinf : o.Cost = .inf)
    (hstart : inGrid w h start = true)
    (hfuel : w.toNat * h.toNat < fuel) :
    navigate (gridNeighbors w h) start goal obstacles fuel
      = some (.error (.pathNotFound start.M start.N goal.M goal.N)) := by
  have hnn := navigate_ne_none_of_grid w h start goal obstacles fuel hstart hfuel
  have hok : ∀ p, navigate (gridNeighbors w h) start goal obstacles fuel ≠ some (.ok p) := by
    intro p
    rw [navigate]
    refine navigateLoop_no_ok (gridNeighbors w h) start goal obstacles o hfind hinf fuel _ ?_ p
    intro hmem
    exfalso
    rw [List.mem_singleton] at hmem
    subst hmem
    exact hne ⟨rfl, rfl⟩
  rcases navigateLoop_shape (gridNeighbors w h) start goal obstacles fuel
      ⟨[], [start], [], [(start, 0)], [(start, heuristic start goal)]⟩ with hsh | ⟨p, hsh⟩ | hsh
  · exact absurd (by rw [navigate]; exact hsh) hnn
  · exact absurd (by rw [navigate]; exact hsh) (hok p)
  · rw [navigate]
    exact hsh

/-- Witness for `navigate_impassable_goal`: on the 2×2 grid with the goal
`(1,1)` carrying an infinite multiplier, the search fails. -/
theorem navigate_impassable_goal_witness :
    navigate (gridNeighbors 2 2) ⟨0, 0⟩ ⟨1, 1⟩ [⟨1, 1, .inf⟩] 5
      = some (.error (.pathNotFound 0 0 1 1)) :=
  navigate_impassable_goal 2 2 ⟨0, 0⟩ ⟨1, 1⟩ [⟨1, 1, .inf⟩] ⟨1, 1, .inf⟩ 5
    (by decide) rfl rfl (by decide) (by decide)

/-- Counterexample to C4 as stated: the obstacle list
`[(goal, 2), (goal, ∞)]` does contain an entry at the goal's coordinates
with an infinite multiplier, yet `Navigate` succeeds, because the first
matching entry (the finite multiplier 2) wins and the infinite one is
ignored. -/
theorem navigate_impassable_goal_counterexample :
    (∃ ob ∈ ([⟨0, 1, .val 2⟩, ⟨0, 1, .inf⟩] : List ContextualObstacle),
        ob.M = (0 : Int) ∧ ob.N = (1 : Int) ∧ ob.Cost = .inf)
      ∧ ((⟨0, 0⟩ : Hex) ≠ ⟨0, 1⟩)
      ∧ navigate (gridNeighbors 1 2) ⟨0, 0⟩ ⟨0, 1⟩ [⟨0, 1, .val 2⟩, ⟨0, 1, .inf⟩] 10
          = some (.ok [⟨0, 0⟩, ⟨0, 1⟩]) :=
  ⟨⟨⟨0, 1, .inf⟩, by decide, rfl, rfl, rfl⟩, by decide, by decide⟩

/-! ## C10: obstacle entries on the start cell are never consulted -/

theorem find?_filter_of_imp {α : Type} (l : List α) (p q : α → Bool)
    (h : ∀ a, p a = true → q a = true) :
    (l.filter q).find? p = l.find? p := by
  induction l with
  | nil => rfl
  | cons a tl ih =>
    by_cases hq : q a = true
    · rw [List.filter_cons_of_pos hq]
      cases hp : p a with
      | true => rw [List.find?_cons_of_pos _ hp, List.find?_cons_of_pos _ hp]
      | false => rw [List.find?_cons_of_neg _ (by simp [hp]), List.find?_cons_of_neg _ (by simp [hp]), ih]
    · have hp : p a = false := by
        cases hpa : p a
        · rfl
        · exact absurd (h a hpa) hq
      rw [List.filter_cons_of_neg (by simp [hq]), List.find?_cons_of_neg _ (by simp [hp]), ih]

theorem adjustCost_filter_start (start n : Hex) (obstacles : List ContextualObstacle)
    (t : ℚ) (hne : ¬(n.M = start.M ∧ n.N = start.N)) :
    adjustCost (obstacles.filter fun o => !(o.M == start.M && o.N == start.N)) n t
      = adjustCost obstacles n t := by
  rw [adjustCost, adjustCost, find?_filter_of_imp]
  intro o hpo
  simp only [Bool.and_eq_true, beq_iff_eq] at hpo
  simp only [Bool.not_eq_true', Bool.and_eq_false_iff, beq_eq_false_iff_ne, ne_eq]
  by_cases hM : o.M = start.M
  · right
    intro hN
    exact hne ⟨hpo.1 ▸ hM, hpo.2 ▸ hN⟩
  · left
    exact hM

theorem processNeighbor_filter_start (start goal current : Hex)
    (obstacles : List ContextualObstacle) (s : NavState) (n : Hex)
    (hcl : (⟨start.M, start.N⟩ : Key) ∈ s.closed) :
    processNeighbor (obstacles.filter fun o => !(o.M == start.M && o.N == start.N))
        goal current s n
      = processNeighbor obstacles goal current s n := by
  by_cases hncl : (⟨n.M, n.N⟩ : Key) ∈ s.closed
  · rw [processNeighbor, if_pos hncl, processNeighbor, if_pos hncl]
  · have hne : ¬(n.M = start.M ∧ n.N = start.N) := by
      rintro ⟨h1, h2⟩
      exact hncl (by rw [h1, h2]; exact hcl)
    rw [processNeighbor, if_neg hncl, processNeighbor, if_neg hncl,
      adjustCost_filter_start start n obstacles _ hne]

theorem foldl_processNeighbor_filter_start (start goal current : Hex)
    (obstacles : List ContextualObstacle) (l : List Hex) :
    ∀ s : NavState, (⟨start.M, start.N⟩ : Key) ∈ s.closed →
      l.foldl (processNeighbor (obstacles.filter fun o => !(o.M == start.M && o.N == start.N))
          goal current) s
        = l.foldl (processNeighbor obstacles goal current) s := by
  induction l with
  | nil => exact fun _ _ => rfl
  | cons a tl ih =>
    intro s hcl
    rw [List.foldl_cons, List.foldl_cons,
      processNeighbor_filter_start start goal current obstacles s a hcl]
    refine ih _ ?_
    rw [processNeighbor_closed]
    exact hcl

theorem settleAndExpand_filter_start (nbs : Hex → List Hex) (start goal current : Hex)
    (obstacles : List ContextualObstacle) (s : NavState)
    (h : (⟨start.M, start.N⟩ : Key) ∈ s.closed ∨ current = start) :
    settleAndExpand nbs (obstacles.filter fun o => !(o.M == start.M && o.N == start.N))
        goal current s
      = settleAndExpand nbs obstacles goal current s := by
  rw [settleAndExpand, settleAndExpand]
  refine foldl_processNeighbor_filter_start start goal current obstacles _ _ ?_
  rcases h with h1 | h1
  · exact List.mem_cons_of_mem _ h1
  · subst h1
    exact List.mem_cons_self _ _

theorem navigateLoop_filter_start (nbs : Hex → List Hex) (start goal : Hex)
    (obstacles : List ContextualObstacle) :
    ∀ (fuel : Nat) (s : NavState), (⟨start.M, start.N⟩ : Key) ∈ s.closed →
      navigateLoop nbs start goal
          (obstacles.filter fun o => !(o.M == start.M && o.N == start.N)) fuel s
        = navigateLoop nbs start goal obstacles fuel s := by
  intro fuel
  induction fuel with
  | zero => exact fun _ _ => rfl
  | succ fuel ih =>
    intro s hcl
    rw [navigateLoop, navigateLoop]
    by_cases hemp : s.frontier.isEmpty
    · simp [hemp]
    · simp only [hemp, Bool.false_eq_true, if_false]
      cases hsel : selectMin s.guesses s.frontier with
      | none => rfl
      | some current =>
        by_cases hgoal : current = goal
        · simp [hgoal]
        · simp only [hgoal, if_false]
          rw [settleAndExpand_filter_start nbs start goal current obstacles s (Or.inl hcl)]
          refine ih _ ?_
          rw [settleAndExpand_closed]
          exact List.mem_cons_of_mem _ hcl

/-- C10: `Navigate` returns the same result as with every obstacle entry at
the start cell's coordinates removed: the start's coordinates are settled
before any neighbour expansion, neighbours with settled coordinates are
skipped before the obstacle scan, so an entry at the start's coordinates is
never consulted.  Holds for every neighbour enumeration, fuel, start, goal
and obstacle list. -/
theorem navigate_start_obstacle_irrelevant (nbs : Hex → List Hex) (start goal : Hex)
    (obstacles : List ContextualObstacle) (fuel : Nat) :
    navigate nbs start goal
        (obstacles.filter fun o => !(o.M == start.M && o.N == start.N)) fuel
      = navigate nbs start goal obstacles fuel := by
  cases fuel with
  | zero => rfl
  | succ fuel =>
    rw [navigate, navigate, navigateLoop, navigateLoop]
    simp only [List.isEmpty_cons, Bool.false_eq_true, if_false]
    cases hsel : selectMin [(start, heuristic start goal)] [start] with
    | none => rfl
    | some current =>
      have hcur : current = start := by
        have := (selectMin_spec [(start, heuristic start goal)] [start] current hsel).1
        rwa [List.mem_singleton] at this
      subst hcur
      by_cases hgoal : current = goal
      · simp [hgoal]
      · simp only [hgoal, if_false]
        rw [settleAndExpand_filter_start nbs current goal current obstacles _ (Or.inr rfl)]
        refine navigateLoop_filter_start nbs current goal obstacles fuel _ ?_
        rw [settleAndExpand_closed]
        exact List.mem_cons_self _ _

/-! ## C3: path length on obstacle-free searches -/

theorem chain_snoc (nbs : Hex → List Hex) (a b c : Hex) (l : List Hex)
    (h : chain nbs a l b) (hc : c ∈ nbs b) : chain nbs a (l ++ [c]) c := by
  induction l generalizing a with
  | nil =>
    cases h
    exact ⟨hc, rfl⟩
  | cons d l2 ih =>
    exact ⟨h.1, ih d h.2⟩

theorem row_chain_fwd (W : Int) :
    ∀ k : Nat, (k : Int) < W →
      ∃ l, chain (gridNeighbors W 1) ⟨0, 0⟩ l ⟨(k : Int), 0⟩ := by
  intro k
  induction k with
  | zero => exact fun _ => ⟨[], rfl⟩
  | succ k ih =>
    intro hW
    have hk : (k : Int) < W := by push_cast at hW ⊢; omega
    obtain ⟨l, hl⟩ := ih hk
    refine ⟨l ++ [⟨(k : Int) + 1, 0⟩], ?_⟩
    have hmem : (⟨(k : Int) + 1, 0⟩ : Hex) ∈ gridNeighbors W 1 ⟨(k : Int), 0⟩ := by
      rw [gridNeighbors, List.mem_filter]
      constructor
      · simp [axialNeighbors]
      · simp only [inGrid, Bool.and_eq_true, decide_eq_true_eq]
        push_cast at hW
        omega
    have := chain_snoc (gridNeighbors W 1) ⟨0, 0⟩ ⟨(k : Int), 0⟩ ⟨(k : Int) + 1, 0⟩ l hl hmem
    have hcast : ((k + 1 : Nat) : Int) = (k : Int) + 1 := by push_cast; ring
    rw [hcast]
    exact this

theorem row_chain_bwd (W : Int) :
    ∀ k : Nat, (k : Int) < W →
      ∃ l, chain (gridNeighbors W 1) ⟨(k : Int), 0⟩ l ⟨0, 0⟩ := by
  intro k
  induction k with
  | zero => exact fun _ => ⟨[], rfl⟩
  | succ k ih =>
    intro hW
    have hk : (k : Int) < W := by push_cast at hW ⊢; omega
    obtain ⟨l, hl⟩ := ih hk
    refine ⟨⟨(k : Int), 0⟩ :: l, ?_, hl⟩
    have hcast : ((k + 1 : Nat) : Int) = (k : Int) + 1 := by push_cast; ring
    rw [hcast, gridNeighbors, List.mem_filter]
    constructor
    · simp [axialNeighbors]
    · simp only [inGrid, Bool.and_eq_true, decide_eq_true_eq]
      push_cast at hW
      omega

/-- C3 (failing input for the claim): on the single-row field of width
`10^155 + 1`, the cells `(0,0)` and `(10^155, 0)` are mutually reachable
(explicit walks exist in both directions) at minimal step distance
`10^155`, yet `Navigate` with no obstacles returns the path-not-found
error for every fuel: the squared heuristic of the start,
`10^310`, meets `math.MaxFloat64` (in `float64` it overflows to `+Inf`),
so the selection scan never selects any cell and the loop breaks in its
first iteration. -/
theorem navigate_reachable_pair_no_path :
    (∃ l, chain (gridNeighbors 100000000000000000000000000000000000000000000000000000000000000000000000000000000000000000000000000000000000000000000000000000000000000000000000000000000001 1) ⟨0, 0⟩ l
        ⟨100000000000000000000000000000000000000000000000000000000000000000000000000000000000000000000000000000000000000000000000000000000000000000000000000000000000, 0⟩)
      ∧ (∃ l, chain (gridNeighbors 100000000000000000000000000000000000000000000000000000000000000000000000000000000000000000000000000000000000000000000000000000000000000000000000000000000001 1)
          ⟨100000000000000000000000000000000000000000000000000000000000000000000000000000000000000000000000000000000000000000000000000000000000000000000000000000000000, 0⟩ l ⟨0, 0⟩)
      ∧ hexDist ⟨0, 0⟩ ⟨100000000000000000000000000000000000000000000000000000000000000000000000000000000000000000000000000000000000000000000000000000000000000000000000000000000000, 0⟩
          = 100000000000000000000000000000000000000000000000000000000000000000000000000000000000000000000000000000000000000000000000000000000000000000000000000000000000
      ∧ maxFloat64 ≤ heuristic ⟨0, 0⟩ ⟨100000000000000000000000000000000000000000000000000000000000000000000000000000000000000000000000000000000000000000000000000000000000000000000000000000000000, 0⟩
      ∧ ∀ fuel : Nat,
          navigate (gridNeighbors 100000000000000000000000000000000000000000000000000000000000000000000000000000000000000000000000000000000000000000000000000000000000000000000000000000000001 1) ⟨0, 0⟩
              ⟨100000000000000000000000000000000000000000000000000000000000000000000000000000000000000000000000000000000000000000000000000000000000000000000000000000000000, 0⟩ [] (fuel + 1)
            = some (.error (.pathNotFound 0 0 100000000000000000000000000000000000000000000000000000000000000000000000000000000000000000000000000000000000000000000000000000000000000000000000000000000000 0)) := by
  have hge : maxFloat64 ≤ heuristic ⟨0, 0⟩ ⟨100000000000000000000000000000000000000000000000000000000000000000000000000000000000000000000000000000000000000000000000000000000000000000000000000000000000, 0⟩ := by
    rw [heuristic, maxFloat64]
    norm_num
  refine ⟨?_, ?_, ?_, hge, ?_⟩
  · have := row_chain_fwd 100000000000000000000000000000000000000000000000000000000000000000000000000000000000000000000000000000000000000000000000000000000000000000000000000000000001 (100000000000000000000000000000000000000000000000000000000000000000000000000000000000000000000000000000000000000000000000000000000000000000000000000000000000 : Nat) (by norm_num)
    simpa using this
  · have := row_chain_bwd 100000000000000000000000000000000000000000000000000000000000000000000000000000000000000000000000000000000000000000000000000000000000000000000000000000000001 (100000000000000000000000000000000000000000000000000000000000000000000000000000000000000000000000000000000000000000000000000000000000000000000000000000000000 : Nat) (by norm_num)
    simpa using this
  · rw [hexDist]
    norm_num
  · intro fuel
    have hsel : selectMin
        [(⟨0, 0⟩, heuristic ⟨0, 0⟩ ⟨100000000000000000000000000000000000000000000000000000000000000000000000000000000000000000000000000000000000000000000000000000000000000000000000000000000000, 0⟩)]
        [⟨0, 0⟩] = none := by
      refine selectMin_of_forall_ge _ _ ?_
      intro k hk
      rw [List.mem_singleton] at hk
      subst hk
      rw [lookupD_cons_self]
      exact hge
    rw [navigate, navigateLoop]
    simp [hsel]
